import Mathlib

/-!
Shallow embedding of `athena/transform/feats/cmvn.py` (CMVN feature
normalization) and verification of its specified behaviour.

Feature tensors are modelled as lists of frames, each frame a list of
scalars.  Scalar arithmetic is modelled over an arbitrary linear ordered
field `α`; the square-root primitive of the tensor library is passed in
explicitly as a function `sqrt : α → α`, and the claim-level theorems
instantiate `α := ℝ` with `sqrt := Real.sqrt`.  The float literal `1e-6`
of the source is modelled as the exact rational `1 / 1000000`.
-/

section CMVNModel

variable {α : Type} [LinearOrderedField α]

/-- The configuration record produced by `CMVN.params` (an `HParams`
object holding the four registered hyperparameters of `cmvn.py`). -/
structure HParams (α : Type) where
  type : String
  global_mean : List α
  global_variance : List α
  local_cmvn : Bool
deriving Repr, DecidableEq

/-- A caller-supplied config dict for `hparams.parse`: each registered key
may or may not be overridden. -/
structure CmvnConfig (α : Type) where
  type : Option String
  global_mean : Option (List α)
  global_variance : Option (List α)
  local_cmvn : Option Bool
deriving Repr, DecidableEq

/-- Registration of the defaults (`add_hparam` calls in `CMVN.params`)
followed by `hparams.parse(config, True)`: caller-supplied values replace
the defaults `type = "CMVN"`, `global_mean = [0.0]`,
`global_variance = [1.0]`, `local_cmvn = False`. -/
def mergeConfig (config : Option (CmvnConfig α)) : HParams α :=
  let d : HParams α := ⟨"CMVN", [0], [1], false⟩
  match config with
  | none => d
  | some c =>
      ⟨c.type.getD d.type, c.global_mean.getD d.global_mean,
       c.global_variance.getD d.global_variance, c.local_cmvn.getD d.local_cmvn⟩

/-- `CMVN.params`: build the hparams from defaults and overrides, assert
`len(global_mean) == len(global_variance)` (a failed assert aborts, so no
record is returned: modelled by `none`), then replace `global_variance`
in place by `np.sqrt(global_variance) + 1e-6`. -/
def CMVN.params (sqrt : α → α) (config : Option (CmvnConfig α)) : Option (HParams α) :=
  let h := mergeConfig config
  if h.global_mean.length = h.global_variance.length then
    some { h with global_variance := h.global_variance.map (fun v => sqrt v + 1 / 1000000) }
  else
    none

/-- The CMVN transform object: it stores its configuration record and the
`global_cmvn` flag derived in `CMVN.__init__`. -/
structure CMVN (α : Type) where
  config : HParams α
  global_cmvn : Bool
deriving Repr, DecidableEq

/-- `CMVN.__init__`: `self.global_cmvn = False`, then set it to `True`
when `len(config.global_mean) > 1`. -/
def CMVN.init (config : HParams α) : CMVN α :=
  ⟨config, decide (1 < config.global_mean.length)⟩

/-- The number of frames of a feature tensor. -/
def numFrames (t : List (List α)) : Nat := t.length

/-- The size of the last axis of a feature tensor (the dimensionality of
its frames). -/
def lastDim (t : List (List α)) : Nat := (t.headD []).length

/-- Element-wise `(feature - mean) / variance` with `mean` and `variance`
broadcast across the frame axis: the arithmetic of the global branches of
`CMVN.call` and `compute_cmvn`. -/
def globalNormalize (m v : List α) (t : List (List α)) : List (List α) :=
  t.map (fun fr => List.zipWith (fun x p => (x - p.1) / p.2) fr (m.zip v))

/-- Element-wise sum of a list of `D`-dimensional rows (the reduction over
axis 0 used by the moments computation). -/
def axisSum (D : Nat) (rows : List (List α)) : List α :=
  rows.foldr (fun fr acc => List.zipWith (· + ·) fr acc) (List.replicate D 0)

/-- `tf.compat.v1.nn.moments(audio_feature, axes=0)`: the per-dimension
mean and (population) variance across axis 0, the frame axis. -/
def moments (t : List (List α)) : List α × List α :=
  let D := lastDim t
  let n : α := (t.length : α)
  let mean := (axisSum D t).map (fun s => s / n)
  let dev := t.map (fun fr => List.zipWith (fun x m => (x - m) ^ 2) fr mean)
  let var := (axisSum D dev).map (fun s => s / n)
  (mean, var)

/-- The local normalization step shared by `CMVN.call` and `compute_cmvn`:
`mean, var = tf.nn.moments(feature, axes=0)` followed by
`(feature - mean) / (sqrt(var) + 1e-6)`. -/
def localCMVN (sqrt : α → α) (t : List (List α)) : List (List α) :=
  let m := (moments t).1
  let v := (moments t).2
  t.map (fun fr => List.zipWith (fun x p => (x - p.1) / (sqrt p.2 + 1 / 1000000)) fr (m.zip v))

/-- `CMVN.call(audio_feature)`: the global step when `self.global_cmvn`,
then the local step when `params.local_cmvn`.  (The `speed` argument of
the source is unused by the body and omitted; the `dim` function nested
after the `return` statement is dead code and does not appear.) -/
def CMVN.call (self : CMVN α) (sqrt : α → α) (audio_feature : List (List α)) :
    List (List α) :=
  let p := self.config
  let f1 :=
    if self.global_cmvn then globalNormalize p.global_mean p.global_variance audio_feature
    else audio_feature
  if p.local_cmvn then localCMVN sqrt f1 else f1

/-- Modelled from the spec: the shape validation performed by the tensor
library when the broadcast element-wise arithmetic of the global step runs
is not part of this repository; per the spec, `call` fails with a
shape-mismatch error when the feature's last dimension differs from
`len(global_mean)`.  Otherwise it returns the result of `CMVN.call`. -/
def CMVN.callChecked (self : CMVN α) (sqrt : α → α) (t : List (List α)) :
    Option (List (List α)) :=
  if self.global_cmvn = true ∧ lastDim t ≠ self.config.global_mean.length then none
  else some (self.call sqrt t)

/-- The standalone `compute_cmvn(audio_feature, mean, variance, local_cmvn)`.
When `mean` is supplied, `assert variance is not None` (a failed assert is
modelled by `none`) and the global branch divides by the caller's raw
`variance`; then the local branch runs exactly as in `CMVN.call`. -/
def compute_cmvn (sqrt : α → α) (audio_feature : List (List α))
    (mean variance : Option (List α)) (local_cmvn : Bool) : Option (List (List α)) :=
  match mean with
  | some m =>
      match variance with
      | none => none
      | some v =>
          let f := globalNormalize m v audio_feature
          some (if local_cmvn then localCMVN sqrt f else f)
  | none =>
      some (if local_cmvn then localCMVN sqrt audio_feature else audio_feature)

/-- The attributes bound in the body of `class CMVN` in the source:
`__init__`, the classmethod `params`, and `call`.  No `dim` attribute is
ever bound on the class or its instances: the `def dim` of the source is
nested inside `call`'s body, after `call`'s `return` statement. -/
def CMVN.classMethods : List String := ["__init__", "params", "call"]

/-- The body of the dead nested `dim` function of the source:
`return len(params.global_mean)` for the instance's config. -/
def CMVN.deadDimBody (config : HParams α) : Nat := config.global_mean.length

/-! Spec-side formulas.  These definitions transcribe the specification's
per-dimension formulas (indexing dimensions directly) and are compared
against the zip-based code model by the theorems below. -/

/-- Spec formula for the global step: for every frame, for every dimension
`d`, `output[d] = (input[d] - global_mean[d]) / global_variance_scaled[d]`. -/
def specGlobalStep (m v : List α) (t : List (List α)) : List (List α) :=
  t.map (fun fr => (List.range m.length).map
    (fun d => (fr.getD d 0 - m.getD d 0) / v.getD d 0))

/-- Spec formula: the mean of dimension `d` across the frame axis. -/
def specColMean (t : List (List α)) (d : Nat) : α :=
  (t.map (fun fr => fr.getD d 0)).sum / (t.length : α)

/-- Spec formula: the variance of dimension `d` across the frame axis. -/
def specColVar (t : List (List α)) (d : Nat) : α :=
  (t.map (fun fr => (fr.getD d 0 - specColMean t d) ^ 2)).sum / (t.length : α)

/-- Spec formula for the local step: per-dimension mean and variance are
computed across axis 0 and every element becomes
`(value[d] - mean[d]) / (sqrt(variance[d]) + 1e-6)`. -/
def specLocalStep (sqrt : α → α) (t : List (List α)) : List (List α) :=
  t.map (fun fr => (List.range (lastDim t)).map
    (fun d => (fr.getD d 0 - specColMean t d) / (sqrt (specColVar t d) + 1 / 1000000)))

end CMVNModel

section CMVNLemmas

set_option linter.unusedSectionVars false

variable {α : Type} [LinearOrderedField α]

theorem length_axisSum (D : Nat) (rows : List (List α))
    (h : ∀ r ∈ rows, r.length = D) : (axisSum D rows).length = D := by
  induction rows with
  | nil => simp [axisSum]
  | cons r rs ih =>
      have hr : r.length = D := h r (by simp)
      have hrs : (axisSum D rs).length = D := ih (fun x hx => h x (by simp [hx]))
      simp [axisSum] at hrs ⊢
      omega

theorem getD_axisSum (D : Nat) (rows : List (List α))
    (h : ∀ r ∈ rows, r.length = D) (d : Nat) (hd : d < D) :
    (axisSum D rows).getD d 0 = (rows.map (fun r => r.getD d 0)).sum := by
  induction rows with
  | nil =>
      have hd1 : d < (List.replicate D (0 : α)).length := by simpa using hd
      simp only [axisSum, List.foldr_nil, List.map_nil, List.sum_nil]
      rw [List.getD_eq_getElem _ _ hd1, List.getElem_replicate]
  | cons r rs ih =>
      have hr : r.length = D := h r (by simp)
      have hrs : ∀ x ∈ rs, x.length = D := fun x hx => h x (by simp [hx])
      have hlen : (axisSum D rs).length = D := length_axisSum D rs hrs
      have hzip : (axisSum D (r :: rs)).length = D := length_axisSum D (r :: rs) h
      have hd1 : d < (axisSum D (r :: rs)).length := by omega
      have hd2 : d < r.length := by omega
      have hd3 : d < (axisSum D rs).length := by omega
      have hstep : axisSum D (r :: rs) = List.zipWith (· + ·) r (axisSum D rs) := rfl
      rw [List.getD_eq_getElem _ _ hd1]
      have hkey : (axisSum D (r :: rs))[d] = r[d] + (axisSum D rs)[d] := by
        simp only [hstep]
        exact List.getElem_zipWith
      rw [hkey, List.map_cons, List.sum_cons, ← ih hrs,
        List.getD_eq_getElem _ _ hd2, List.getD_eq_getElem _ _ hd3]

theorem frames_eq_lastDim (t : List (List α)) (D : Nat)
    (h : ∀ fr ∈ t, fr.length = D) : ∀ fr ∈ t, fr.length = lastDim t := by
  cases t with
  | nil => simp
  | cons a l =>
      have ha : a.length = D := h a (by simp)
      have hl : lastDim (a :: l) = D := by simp [lastDim, ha]
      intro fr hfr
      rw [hl]
      exact h fr hfr

theorem moments_fst_length (t : List (List α))
    (h : ∀ fr ∈ t, fr.length = lastDim t) : (moments t).1.length = lastDim t := by
  simp [moments, length_axisSum _ _ h]

theorem moments_fst_getD (t : List (List α))
    (h : ∀ fr ∈ t, fr.length = lastDim t) (d : Nat) (hd : d < lastDim t) :
    (moments t).1.getD d 0 = specColMean t d := by
  have hlen : (axisSum (lastDim t) t).length = lastDim t := length_axisSum _ _ h
  have hd1 : d < ((axisSum (lastDim t) t).map (fun s => s / (t.length : α))).length := by
    simp [hlen, hd]
  have hd2 : d < (axisSum (lastDim t) t).length := by omega
  show ((axisSum (lastDim t) t).map (fun s => s / (t.length : α))).getD d 0 = _
  rw [List.getD_eq_getElem _ _ hd1, List.getElem_map, ← List.getD_eq_getElem _ _ hd2,
    getD_axisSum _ _ h d hd]
  rfl

theorem moments_snd_getD (t : List (List α))
    (h : ∀ fr ∈ t, fr.length = lastDim t) (d : Nat) (hd : d < lastDim t) :
    (moments t).2.getD d 0 = specColVar t d := by
  have hlen : (axisSum (lastDim t) t).length = lastDim t := length_axisSum _ _ h
  have hmean : (moments t).1.length = lastDim t := moments_fst_length t h
  have hdev : ∀ r ∈ t.map (fun fr => List.zipWith (fun x m => (x - m) ^ 2) fr (moments t).1),
      r.length = lastDim t := by
    intro r hr
    rcases List.mem_map.mp hr with ⟨fr, hfr, rfl⟩
    simp [h fr hfr, hmean]
  have hlen2 : (axisSum (lastDim t)
      (t.map (fun fr => List.zipWith (fun x m => (x - m) ^ 2) fr (moments t).1))).length
      = lastDim t := length_axisSum _ _ hdev
  have hd1 : d < ((axisSum (lastDim t)
      (t.map (fun fr => List.zipWith (fun x m => (x - m) ^ 2) fr (moments t).1))).map
      (fun s => s / (t.length : α))).length := by simp [hlen2, hd]
  have hd2 : d < (axisSum (lastDim t)
      (t.map (fun fr => List.zipWith (fun x m => (x - m) ^ 2) fr (moments t).1))).length := by
    omega
  show ((axisSum (lastDim t)
      (t.map (fun fr => List.zipWith (fun x m => (x - m) ^ 2) fr (moments t).1))).map
      (fun s => s / (t.length : α))).getD d 0 = _
  rw [List.getD_eq_getElem _ _ hd1, List.getElem_map, ← List.getD_eq_getElem _ _ hd2,
    getD_axisSum _ _ hdev d hd, List.map_map]
  have hrows : (t.map ((fun r => r.getD d 0) ∘
      fun fr => List.zipWith (fun x m => (x - m) ^ 2) fr (moments t).1))
      = t.map (fun fr => (fr.getD d 0 - specColMean t d) ^ 2) := by
    apply List.map_congr_left
    intro fr hfr
    have hfr1 : d < fr.length := by rw [h fr hfr]; exact hd
    have hfr2 : d < (List.zipWith (fun x m => (x - m) ^ 2) fr (moments t).1).length := by
      simp [h fr hfr, hmean, hd]
    have hfr3 : d < (moments t).1.length := by omega
    simp only [Function.comp]
    rw [List.getD_eq_getElem _ _ hfr2, List.getElem_zipWith,
      ← List.getD_eq_getElem fr _ hfr1, ← List.getD_eq_getElem _ _ hfr3,
      moments_fst_getD t h d hd]
  rw [hrows]
  rfl

theorem localCMVN_eq_specLocalStep (sqrt : α → α) (t : List (List α))
    (h : ∀ fr ∈ t, fr.length = lastDim t) :
    localCMVN sqrt t = specLocalStep sqrt t := by
  have hmean : (moments t).1.length = lastDim t := moments_fst_length t h
  have hvar : (moments t).2.length = lastDim t := by
    simp [moments, lastDim] at hmean ⊢
    have hdev : ∀ r ∈ t.map (fun fr => List.zipWith (fun x m => (x - m) ^ 2) fr (moments t).1),
        r.length = lastDim t := by
      intro r hr
      rcases List.mem_map.mp hr with ⟨fr, hfr, rfl⟩
      have := moments_fst_length t h
      simp [h fr hfr, this]
    have := length_axisSum _ _ hdev
    simp [moments, lastDim] at this
    simpa using this
  apply List.map_congr_left
  intro fr hfr
  have hfrl : fr.length = lastDim t := h fr hfr
  apply List.ext_getElem
  · simp [hfrl, hmean, hvar]
  · intro d h1 h2
    have hd : d < lastDim t := by
      simp [hfrl, hmean, hvar] at h1
      omega
    have hdm : d < (moments t).1.length := by omega
    have hdv : d < (moments t).2.length := by omega
    have hdz : d < ((moments t).1.zip (moments t).2).length := by
      simp [List.length_zip]
      omega
    have hdf : d < fr.length := by omega
    rw [List.getElem_zipWith, List.getElem_map, List.getElem_range, List.getElem_zip,
      ← List.getD_eq_getElem fr _ hdf, ← List.getD_eq_getElem _ _ hdm,
      ← List.getD_eq_getElem _ _ hdv, moments_fst_getD t h d hd,
      moments_snd_getD t h d hd]

theorem globalNormalize_eq_specGlobalStep (m v : List α) (t : List (List α))
    (hfr : ∀ fr ∈ t, fr.length = m.length) (hv : v.length = m.length) :
    globalNormalize m v t = specGlobalStep m v t := by
  apply List.map_congr_left
  intro fr hfrmem
  have hfrl : fr.length = m.length := hfr fr hfrmem
  apply List.ext_getElem
  · simp [hfrl, hv]
  · intro d h1 h2
    have hd : d < m.length := by
      simp [hfrl, hv] at h1
      omega
    have hdz : d < (m.zip v).length := by
      simp [List.length_zip, hv]
      omega
    have hdf : d < fr.length := by omega
    have hdv : d < v.length := by omega
    rw [List.getElem_zipWith, List.getElem_map, List.getElem_range, List.getElem_zip,
      ← List.getD_eq_getElem fr _ hdf, ← List.getD_eq_getElem m _ hd,
      ← List.getD_eq_getElem v _ hdv]

theorem specGlobalStep_frames (m v : List α) (t : List (List α)) :
    ∀ fr ∈ specGlobalStep m v t, fr.length = m.length := by
  intro fr hfr
  rcases List.mem_map.mp hfr with ⟨x, _, rfl⟩
  simp

theorem params_variance_scaled_aux (sqrt : α → α) (cfg : Option (CmvnConfig α)) (h : HParams α)
    (hp : CMVN.params sqrt cfg = some h) :
    h.global_variance = (mergeConfig cfg).global_variance.map (fun x => sqrt x + 1 / 1000000) := by
  simp only [CMVN.params] at hp
  by_cases hlen : (mergeConfig cfg).global_mean.length = (mergeConfig cfg).global_variance.length
  · rw [if_pos hlen] at hp
    have he := Option.some.inj hp
    rw [← he]
  · rw [if_neg hlen] at hp
    cases hp

theorem params_isSome_iff (sqrt : α → α) (cfg : Option (CmvnConfig α)) :
    (CMVN.params sqrt cfg).isSome ↔
      (mergeConfig cfg).global_mean.length = (mergeConfig cfg).global_variance.length := by
  simp only [CMVN.params]
  by_cases hlen : (mergeConfig cfg).global_mean.length = (mergeConfig cfg).global_variance.length
  · simp [hlen]
  · simp [hlen]

theorem params_mean_eq (sqrt : α → α) (cfg : Option (CmvnConfig α)) (h : HParams α)
    (hp : CMVN.params sqrt cfg = some h) :
    h.global_mean = (mergeConfig cfg).global_mean := by
  simp only [CMVN.params] at hp
  by_cases hlen : (mergeConfig cfg).global_mean.length = (mergeConfig cfg).global_variance.length
  · rw [if_pos hlen] at hp
    have he := Option.some.inj hp
    rw [← he]
  · rw [if_neg hlen] at hp
    cases hp

end CMVNLemmas

/-! The claim-level theorems.  `α` is instantiated at `ℝ`, with the tensor
library's square root instantiated at `Real.sqrt` wherever the claim is
about square roots. -/

/-- C1: for every config passed to `CMVN.params`, construction succeeds
exactly when `len(global_mean) == len(global_variance)` after the
overrides are applied; on a mismatch the assert fails and no configuration
record is returned, and every returned record has equal lengths. -/
theorem cmvn_params_validates_lengths (sqrt : ℝ → ℝ) (cfg : Option (CmvnConfig ℝ)) :
    ((CMVN.params sqrt cfg).isSome ↔
      (mergeConfig cfg).global_mean.length = (mergeConfig cfg).global_variance.length)
    ∧ ∀ h : HParams ℝ, CMVN.params sqrt cfg = some h →
        h.global_mean.length = h.global_variance.length := by
  refine ⟨params_isSome_iff sqrt cfg, fun h hp => ?_⟩
  have hm := params_mean_eq sqrt cfg h hp
  have hv := params_variance_scaled_aux sqrt cfg h hp
  have hiff := (params_isSome_iff sqrt cfg).mp (by rw [hp]; rfl)
  rw [hm, hv, List.length_map, hiff]

/-- Witness for C1 at the default config (no overrides): the returned
record has `global_mean` and `global_variance` of equal length. -/
theorem cmvn_params_validates_lengths_witness :
    (⟨"CMVN", [0], [id (1 : ℝ) + 1 / 1000000], false⟩ : HParams ℝ).global_mean.length =
      (⟨"CMVN", [0], [id (1 : ℝ) + 1 / 1000000], false⟩ : HParams ℝ).global_variance.length :=
  (cmvn_params_validates_lengths id none).2 _ rfl

/-- C2: for every config accepted by `CMVN.params` with raw variance
vector of non-negative entries, the returned record's `global_variance`
equals the element-wise `Real.sqrt v + 1e-6` of the merged raw variance. -/
theorem cmvn_params_variance_sqrt_floor (cfg : Option (CmvnConfig ℝ)) (h : HParams ℝ)
    (_hnn : ∀ x ∈ (mergeConfig cfg).global_variance, 0 ≤ x)
    (hp : CMVN.params Real.sqrt cfg = some h) :
    h.global_variance =
      (mergeConfig cfg).global_variance.map (fun v => Real.sqrt v + 1 / 1000000) :=
  params_variance_scaled_aux Real.sqrt cfg h hp

/-- Witness for C2 with raw variance `[1, 4]`: the stored scale is
`[sqrt 1 + 1e-6, sqrt 4 + 1e-6]`. -/
theorem cmvn_params_variance_sqrt_floor_witness :
    (⟨"CMVN", [0, 0], [Real.sqrt 1 + 1 / 1000000, Real.sqrt 4 + 1 / 1000000], false⟩ :
        HParams ℝ).global_variance =
      (mergeConfig (some ⟨none, some [0, 0], some [1, 4], none⟩)).global_variance.map
        (fun v => Real.sqrt v + 1 / 1000000) :=
  cmvn_params_variance_sqrt_floor (some ⟨none, some [0, 0], some [1, 4], none⟩) _
    (by intro x hx; simp [mergeConfig] at hx; rcases hx with rfl | rfl <;> norm_num)
    rfl

/-- C5: `global_cmvn` is true iff `len(global_mean) > 1`, and with a
single-element `global_mean` the global normalization step is skipped. -/
theorem cmvn_global_flag_iff_len_gt_one (sqrt : ℝ → ℝ) (cfg : HParams ℝ)
    (t : List (List ℝ)) :
    ((CMVN.init cfg).global_cmvn = true ↔ 1 < cfg.global_mean.length)
    ∧ (cfg.global_mean.length = 1 →
        (CMVN.init cfg).call sqrt t = if cfg.local_cmvn then localCMVN sqrt t else t) := by
  constructor
  · simp [CMVN.init]
  · intro h1
    have hg : (CMVN.init cfg).global_cmvn = false := by simp [CMVN.init, h1]
    have hL : (CMVN.init cfg).config.local_cmvn = cfg.local_cmvn := rfl
    simp [CMVN.call, hg, hL]

/-- Witness for C5: a one-dimensional config with a real global mean is
treated as having no global normalization. -/
theorem cmvn_global_flag_iff_len_gt_one_witness :
    (CMVN.init (⟨"CMVN", [2], [3], false⟩ : HParams ℝ)).call id [[5]] =
      if (⟨"CMVN", [(2 : ℝ)], [3], false⟩ : HParams ℝ).local_cmvn then localCMVN id [[5]]
      else [[5]] :=
  (cmvn_global_flag_iff_len_gt_one id ⟨"CMVN", [2], [3], false⟩ [[5]]).2 rfl

/-- C6: `compute_cmvn` with a supplied mean and no variance fails the
`assert variance is not None` and produces no output. -/
theorem compute_cmvn_missing_variance_fails (sqrt : ℝ → ℝ) (t : List (List ℝ))
    (m : List ℝ) (loc : Bool) :
    compute_cmvn sqrt t (some m) none loc = none := rfl

/-- C8 (code evaluation): the source never binds a `dim` attribute on the
CMVN class — the nested `dim` is dead code inside `call`'s body — although
its body would return `len(global_mean)`. -/
theorem cmvn_dim_is_dead_code :
    CMVN.classMethods.contains "dim" = false
    ∧ CMVN.deadDimBody (⟨"CMVN", [0], [1], false⟩ : HParams ℝ) = 1 := by
  exact ⟨rfl, rfl⟩

/-- C3: `CMVN.call` applies at most two steps in a fixed order: the global
normalization `(x - global_mean[d]) / global_variance_scaled[d]` when
`global_cmvn`, then, when `local_cmvn`, the local normalization
`(y - mean[d]) / (sqrt(var[d]) + 1e-6)` with per-dimension moments taken
across axis 0 of the result of the first step (or of the raw input when
the first step was skipped). -/
theorem cmvn_call_global_then_local (cfg : HParams ℝ) (t : List (List ℝ))
    (hfr : ∀ fr ∈ t, fr.length = cfg.global_mean.length)
    (hv : cfg.global_variance.length = cfg.global_mean.length) :
    (CMVN.init cfg).call Real.sqrt t =
      if cfg.local_cmvn then
        specLocalStep Real.sqrt
          (if (CMVN.init cfg).global_cmvn then
            specGlobalStep cfg.global_mean cfg.global_variance t
          else t)
      else
        (if (CMVN.init cfg).global_cmvn then
          specGlobalStep cfg.global_mean cfg.global_variance t
        else t) := by
  have hglobal := globalNormalize_eq_specGlobalStep cfg.global_mean cfg.global_variance t hfr hv
  have hL2 : (CMVN.init cfg).config.local_cmvn = cfg.local_cmvn := rfl
  have hCm : (CMVN.init cfg).config.global_mean = cfg.global_mean := rfl
  have hCv : (CMVN.init cfg).config.global_variance = cfg.global_variance := rfl
  have hlocal_t := localCMVN_eq_specLocalStep Real.sqrt t
    (frames_eq_lastDim t cfg.global_mean.length hfr)
  have hlocal_g := localCMVN_eq_specLocalStep Real.sqrt
    (specGlobalStep cfg.global_mean cfg.global_variance t)
    (frames_eq_lastDim _ cfg.global_mean.length
      (specGlobalStep_frames cfg.global_mean cfg.global_variance t))
  cases hG : (CMVN.init cfg).global_cmvn <;> cases hL : cfg.local_cmvn <;>
    simp [CMVN.call, hL2, hCm, hCv, hG, hL, hglobal, hlocal_t, hlocal_g]

/-- Witness for C3 on a concrete two-frame feature with both steps on. -/
theorem cmvn_call_global_then_local_witness :
    (CMVN.init (⟨"CMVN", [0, 0], [1, 1], true⟩ : HParams ℝ)).call Real.sqrt [[1, 2], [3, 4]] =
      if (⟨"CMVN", [(0 : ℝ), 0], [1, 1], true⟩ : HParams ℝ).local_cmvn then
        specLocalStep Real.sqrt
          (if (CMVN.init (⟨"CMVN", [0, 0], [1, 1], true⟩ : HParams ℝ)).global_cmvn then
            specGlobalStep [(0 : ℝ), 0] [1, 1] [[1, 2], [3, 4]]
          else [[1, 2], [3, 4]])
      else
        (if (CMVN.init (⟨"CMVN", [0, 0], [1, 1], true⟩ : HParams ℝ)).global_cmvn then
          specGlobalStep [(0 : ℝ), 0] [1, 1] [[1, 2], [3, 4]]
        else [[1, 2], [3, 4]]) :=
  cmvn_call_global_then_local ⟨"CMVN", [0, 0], [1, 1], true⟩ [[1, 2], [3, 4]]
    (by intro fr hfr; simp at hfr; rcases hfr with rfl | rfl <;> rfl) rfl

/-- C4: with `global_cmvn` true and a feature whose last dimension differs
from `len(global_mean)`, the call fails with a shape-mismatch error and
returns no tensor. -/
theorem cmvn_call_shape_mismatch_fails (sqrt : ℝ → ℝ) (self : CMVN ℝ) (t : List (List ℝ))
    (hg : self.global_cmvn = true) (hd : lastDim t ≠ self.config.global_mean.length) :
    self.callChecked sqrt t = none := by
  simp [CMVN.callChecked, hg, hd]

/-- Witness for C4: a one-dimensional feature against a two-dimensional
`global_mean`. -/
theorem cmvn_call_shape_mismatch_fails_witness :
    (CMVN.init (⟨"CMVN", [0, 0], [1, 1], false⟩ : HParams ℝ)).callChecked id [[1]] = none :=
  cmvn_call_shape_mismatch_fails id (CMVN.init ⟨"CMVN", [0, 0], [1, 1], false⟩) [[1]]
    rfl (by decide)

/-- C7: the global branch of `compute_cmvn` divides by the caller's raw
variance — no square root and no epsilon floor — while a record built by
`CMVN.params` stores the `sqrt + 1e-6` scale that `CMVN.call` divides by:
the intentional asymmetry between the two entry points. -/
theorem compute_cmvn_raw_variance_asymmetry (t : List (List ℝ)) (m v : List ℝ)
    (cfg : Option (CmvnConfig ℝ)) (h : HParams ℝ)
    (hfr : ∀ fr ∈ t, fr.length = m.length) (hlen : v.length = m.length)
    (hp : CMVN.params Real.sqrt cfg = some h) :
    compute_cmvn Real.sqrt t (some m) (some v) false = some (specGlobalStep m v t)
    ∧ h.global_variance =
        (mergeConfig cfg).global_variance.map (fun x => Real.sqrt x + 1 / 1000000) := by
  refine ⟨?_, params_variance_scaled_aux Real.sqrt cfg h hp⟩
  show some (globalNormalize m v t) = some (specGlobalStep m v t)
  rw [globalNormalize_eq_specGlobalStep m v t hfr hlen]

/-- Witness for C7 on a concrete frame and the default-config record. -/
theorem compute_cmvn_raw_variance_asymmetry_witness :
    compute_cmvn Real.sqrt [[(3 : ℝ), 5]] (some [1, 1]) (some [2, 2]) false =
      some (specGlobalStep [(1 : ℝ), 1] [2, 2] [[3, 5]])
    ∧ (⟨"CMVN", [0], [Real.sqrt 1 + 1 / 1000000], false⟩ : HParams ℝ).global_variance =
        (mergeConfig none).global_variance.map (fun x => Real.sqrt x + 1 / 1000000) :=
  compute_cmvn_raw_variance_asymmetry [[3, 5]] [1, 1] [2, 2] none
    ⟨"CMVN", [0], [Real.sqrt 1 + 1 / 1000000], false⟩
    (by intro fr hfr; simp at hfr; rw [hfr]; rfl) rfl rfl

/-- C9: with `local_cmvn` false and global normalization enabled,
`CMVN.call` is not idempotent: there is a feature tensor on which applying
`call` twice differs from applying it once. -/
theorem cmvn_call_not_idempotent :
    ∃ (cfg : HParams ℝ) (t : List (List ℝ)),
      cfg.local_cmvn = false ∧ (CMVN.init cfg).global_cmvn = true ∧
      (CMVN.init cfg).call Real.sqrt ((CMVN.init cfg).call Real.sqrt t) ≠
        (CMVN.init cfg).call Real.sqrt t := by
  refine ⟨⟨"CMVN", [1, 1], [1, 1], false⟩, [[0, 0]], rfl, rfl, ?_⟩
  have h1 : (CMVN.init (⟨"CMVN", [1, 1], [1, 1], false⟩ : HParams ℝ)).call Real.sqrt [[0, 0]]
      = [[-1, -1]] := by
    norm_num [CMVN.call, CMVN.init, globalNormalize]
  have h2 : (CMVN.init (⟨"CMVN", [1, 1], [1, 1], false⟩ : HParams ℝ)).call Real.sqrt [[-1, -1]]
      = [[-2, -2]] := by
    norm_num [CMVN.call, CMVN.init, globalNormalize]
  rw [h1, h2]
  intro hcontra
  simp at hcontra

/-- C10: with both normalizations disabled, `CMVN.call` is the identity,
and `compute_cmvn` with `mean=None` ignores a supplied variance and
returns the feature unchanged. -/
theorem cmvn_identity_when_disabled (sqrt : ℝ → ℝ) (cfg : HParams ℝ)
    (t : List (List ℝ)) (v : List ℝ)
    (hg : (CMVN.init cfg).global_cmvn = false) (hl : cfg.local_cmvn = false) :
    (CMVN.init cfg).call sqrt t = t
    ∧ compute_cmvn sqrt t none (some v) false = some t := by
  refine ⟨?_, rfl⟩
  have hl2 : (CMVN.init cfg).config.local_cmvn = false := hl
  simp [CMVN.call, hg, hl2]

/-- Witness for C10 at the default single-element config. -/
theorem cmvn_identity_when_disabled_witness :
    (CMVN.init (⟨"CMVN", [0], [1], false⟩ : HParams ℝ)).call id [[3]] = [[3]]
    ∧ compute_cmvn id [[(3 : ℝ)]] none (some [9]) false = some [[3]] :=
  cmvn_identity_when_disabled id ⟨"CMVN", [0], [1], false⟩ [[3]] [9] rfl rfl
